import Mathlib

/-!
Verification of the capability-negotiation / parsing / rendering core of
`gen_asound_multi.py`, a one-shot generator of an ALSA configuration that
combines two stereo playback devices into one virtual 4-channel device.

The Python source is embedded shallowly:

* `AlsaCard` and `HwParams` mirror the two dataclasses.
* The `re` searches of `parse_aplay_l` and `parse_hw_params` are embedded as
  recursive scanners over `List Char`.  The relevant regexes are deterministic
  (each quantified token class is followed by a disjoint token class, so
  backtracking never produces a different match than maximal munch); the lazy
  groups `(.*?)` are embedded as first-separator scans, which agrees with the
  regex on every line whose bracketed fields do not themselves contain the
  separator.
* Python's `sorted` is embedded as `List.insertionSort (· ≤ ·)` (any stable
  sort computes the same list); `set` values are carried as lists, and all
  properties proved about them are membership properties, which do not depend
  on that representation choice.
* `main`'s effects are modelled by `mainModel`, a pure function from the texts
  returned by the external collaborators and the operator's two selections to
  either a fatal termination (`SystemExit`, nonzero status, nothing written)
  or the configuration text that gets written.
-/

/-- One record parsed from an `aplay -l` line (dataclass `AlsaCard`). -/
structure AlsaCard where
  num : Nat
  short : String
  desc : String
  dev : Nat
deriving DecidableEq, Repr

/-- Capability descriptor parsed from `--dump-hw-params` output
(dataclass `HwParams`). -/
structure HwParams where
  access : List String
  formats : List String
  rate_fixed : Option Nat
  rate_range : Option (Nat × Nat)
  channels_fixed : Option Nat
  channels_range : Option (Nat × Nat)
deriving DecidableEq, Repr

/-- Python regex class `\s` (ASCII whitespace, the only whitespace occurring
in the diagnostic texts). -/
def pyIsSpace (c : Char) : Bool :=
  c = ' ' || c = '\t' || c = '\n' || c = '\r' || c = '\x0b' || c = '\x0c'

/-- Python regex class `\d`. -/
def pyIsDigit (c : Char) : Bool :=
  '0' ≤ c && c ≤ '9'

/-- Python `int` applied to a nonempty digit string. -/
def digitsToNat (ds : List Char) : Nat :=
  ds.foldl (fun n c => 10 * n + (c.toNat - '0'.toNat)) 0

/-- Consume `\s+` (at least one whitespace character, maximal munch). -/
def munchSpaces : List Char → Option (List Char)
  | [] => none
  | c :: cs => if pyIsSpace c then some (cs.dropWhile pyIsSpace) else none

/-- Consume `(\d+)`: the maximal digit run and the remaining input. -/
def munchDigits : List Char → Option (List Char × List Char)
  | [] => none
  | c :: cs =>
    if pyIsDigit c then
      some (c :: cs.takeWhile pyIsDigit, cs.dropWhile pyIsDigit)
    else none

/-- Consume `(\S+)`: the maximal non-whitespace run and the remaining input. -/
def munchNonSpaces : List Char → Option (List Char × List Char)
  | [] => none
  | c :: cs =>
    if pyIsSpace c then none
    else
      some (c :: cs.takeWhile (fun d => !pyIsSpace d),
            cs.dropWhile (fun d => !pyIsSpace d))

/-- Consume one literal character. -/
def expectChar (c : Char) : List Char → Option (List Char)
  | [] => none
  | d :: ds => if d = c then some ds else none

/-- Consume a literal string. -/
def expectLit (lit : List Char) (s : List Char) : Option (List Char) :=
  if lit.isPrefixOf s then some (s.drop lit.length) else none

/-- Lazy group `(.*?)\],`: capture up to the first `],` and return the rest. -/
def splitAtBracketComma : List Char → Option (List Char × List Char)
  | [] => none
  | ']' :: ',' :: cs => some ([], cs)
  | c :: cs =>
    match splitAtBracketComma cs with
    | some (pre, rest) => some (c :: pre, rest)
    | none => none

/-- Lazy group `(.*?)c`: capture up to the first occurrence of `c`. -/
def splitAtChar (stop : Char) : List Char → Option (List Char × List Char)
  | [] => none
  | c :: cs =>
    if c = stop then some ([], cs)
    else
      match splitAtChar stop cs with
      | some (pre, rest) => some (c :: pre, rest)
      | none => none

/-- Lazy group `(.*?)\s+\[`: capture up to the first whitespace run that is
immediately followed by `[`, and return what follows that bracket. -/
def splitAtWsBracket : List Char → Option (List Char × List Char)
  | [] => none
  | c :: cs =>
    match pyIsSpace c, cs.dropWhile pyIsSpace with
    | true, '[' :: rest => some ([], rest)
    | _, _ =>
      match splitAtWsBracket cs with
      | some (pre, rest) => some (c :: pre, rest)
      | none => none

/-- Python `str.split()` (split on whitespace runs, dropping empty pieces);
`cur` holds the characters of the pending token in reverse. -/
def pySplitWsAux (cur : List Char) : List Char → List String
  | [] => if cur.isEmpty then [] else [String.mk cur.reverse]
  | c :: cs =>
    if pyIsSpace c then
      if cur.isEmpty then pySplitWsAux [] cs
      else String.mk cur.reverse :: pySplitWsAux [] cs
    else pySplitWsAux (c :: cur) cs

/-- Python `str.split()`. -/
def pySplitWs (s : List Char) : List String :=
  pySplitWsAux [] s

/-- Python `str.splitlines()` for newline-separated text; `cur` holds the
characters of the pending line in reverse. -/
def splitLinesAux (cur : List Char) : List Char → List String
  | [] => [String.mk cur.reverse]
  | c :: cs =>
    if c = '\n' then String.mk cur.reverse :: splitLinesAux [] cs
    else splitLinesAux (c :: cur) cs

/-- Python `str.splitlines()` for newline-separated text. -/
def splitLines (s : String) : List String :=
  splitLinesAux [] s.data

/-- Python `re.search`: try the (anchored) matcher at every position,
leftmost match wins. -/
def reSearch {α : Type} (m : List Char → Option α) : List Char → Option α
  | [] => m []
  | c :: cs =>
    match m (c :: cs) with
    | some r => some r
    | none => reSearch m cs

/-- Whether `pat` occurs (as a contiguous substring) anywhere in `s`. -/
def occursIn (pat : List Char) (s : List Char) : Bool :=
  (reSearch (fun t => if pat.isPrefixOf t then some () else none) s).isSome

/-- Anchored matcher for `LABEL\s+(.*)`: the capture is the rest of the line
after the maximal whitespace run following the label. -/
def matchCaptureLine (label : List Char) (s : List Char) : Option (List Char) :=
  match expectLit label s with
  | none => none
  | some rest =>
    match munchSpaces rest with
    | none => none
    | some afterWs => some (afterWs.takeWhile (fun c => c ≠ '\n'))

/-- Anchored matcher for `LABEL\s+\[(\d+)\s+(\d+)\]`. -/
def matchInterval (label : List Char) (s : List Char) : Option (Nat × Nat) := do
  let s1 ← expectLit label s
  let s2 ← munchSpaces s1
  let s3 ← expectChar '[' s2
  let (d1, s4) ← munchDigits s3
  let s5 ← munchSpaces s4
  let (d2, s6) ← munchDigits s5
  let _ ← expectChar ']' s6
  pure (digitsToNat d1, digitsToNat d2)

/-- Anchored matcher for `LABEL\s+(\d+)`. -/
def matchBareInt (label : List Char) (s : List Char) : Option Nat := do
  let s1 ← expectLit label s
  let s2 ← munchSpaces s1
  let (d, _) ← munchDigits s2
  pure (digitsToNat d)

/-- The repeated CHANNELS/RATE shape of `parse_hw_params`: search for the
bracketed interval form first; if it matches nowhere, fall back to the bare
integer form.  Returns `(fixed, range)`. -/
def parseDomain (label : List Char) (s : List Char) :
    Option Nat × Option (Nat × Nat) :=
  match reSearch (matchInterval label) s with
  | some iv => (none, some iv)
  | none =>
    match reSearch (matchBareInt label) s with
    | some v => (some v, none)
    | none => (none, none)

/-- `parse_hw_params`: locate the ACCESS/FORMAT token lists and the
CHANNELS/RATE domains independently anywhere in the diagnostic text. -/
def parse_hw_params (output : String) : HwParams :=
  { access :=
      match reSearch (matchCaptureLine "ACCESS:".data) output.data with
      | some cap => pySplitWs cap
      | none => []
    formats :=
      match reSearch (matchCaptureLine "FORMAT:".data) output.data with
      | some cap => pySplitWs cap
      | none => []
    rate_fixed := (parseDomain "RATE:".data output.data).1
    rate_range := (parseDomain "RATE:".data output.data).2
    channels_fixed := (parseDomain "CHANNELS:".data output.data).1
    channels_range := (parseDomain "CHANNELS:".data output.data).2 }

/-- The `card\s+(\d+):\s+(\S+)\s+\[` head of the `aplay -l` line regex:
card number, short name, and the input following the opening bracket. -/
def parseCardHead (s : List Char) : Option (Nat × String × List Char) := do
  let s1 ← expectLit "card".data s
  let s2 ← munchSpaces s1
  let (d1, s3) ← munchDigits s2
  let s4 ← expectChar ':' s3
  let s5 ← munchSpaces s4
  let (g2, s6) ← munchNonSpaces s5
  let s7 ← munchSpaces s6
  let s8 ← expectChar '[' s7
  pure (digitsToNat d1, String.mk g2, s8)

/-- The `device\s+(\d+):\s+(.*?)\s+\[(.*?)\]` tail of the `aplay -l` line
regex: the sub-device number (the captured device-name groups are unused by
the caller). -/
def parseDeviceTail (s : List Char) : Option Nat := do
  let s1 ← expectLit "device".data s
  let s2 ← munchSpaces s1
  let (d4, s3) ← munchDigits s2
  let s4 ← expectChar ':' s3
  let s5 ← munchSpaces s4
  let (_, s6) ← splitAtWsBracket s5
  let _ ← splitAtChar ']' s6
  pure (digitsToNat d4)

/-- One line of `aplay -l` output, matched against
`card\s+(\d+):\s+(\S+)\s+\[(.*?)\],\s+device\s+(\d+):\s+(.*?)\s+\[(.*?)\]`
(anchored at the start of the line, trailing text allowed). -/
def parseCardLine (line : String) : Option AlsaCard := do
  let (num, short, s8) ← parseCardHead line.data
  let (g3, s9) ← splitAtBracketComma s8
  let s10 ← munchSpaces s9
  let dev ← parseDeviceTail s10
  pure { num := num, short := short, desc := String.mk g3, dev := dev }

/-- `parse_aplay_l`: decode every matching line, deduplicate by card number
keeping the first record seen per number (`dict.setdefault`), and emit the
kept records in ascending order of card number (`sorted(uniq.keys())`). -/
def parse_aplay_l (output : String) : List AlsaCard :=
  let cards := (splitLines output).filterMap parseCardLine
  let keys :=
    List.insertionSort (fun a b => a ≤ b) ((cards.map (fun c => c.num)).dedup)
  keys.filterMap (fun k => cards.find? (fun c => c.num == k))

/-- The nested `supports` function of `choose_common_rate`. -/
def supports (p : HwParams) (rate : Nat) : Bool :=
  match p.rate_fixed with
  | some v => v == rate
  | none =>
    match p.rate_range with
    | some (lo, hi) => decide (lo ≤ rate) && decide (rate ≤ hi)
    | none => false

/-- The nested `get_range` function of `choose_common_rate`: the effective
rate interval (a fixed value becomes a degenerate interval). -/
def get_range (p : HwParams) : Option (Nat × Nat) :=
  match p.rate_fixed with
  | some v => some (v, v)
  | none => p.rate_range

/-- The fixed priority list of preferred rates. -/
def preferredRates : List Nat :=
  [48000, 44100, 96000, 32000]

/-- `choose_common_rate`: first preferred rate supported by both descriptors,
else the lower bound of the intersection of the effective intervals. -/
def choose_common_rate (p1 p2 : HwParams) : Option Nat :=
  match preferredRates.find? (fun r => supports p1 r && supports p2 r) with
  | some r => some r
  | none =>
    match get_range p1, get_range p2 with
    | some (lo1, hi1), some (lo2, hi2) =>
      let lo := max lo1 lo2
      let hi := min hi1 hi2
      if lo > hi then none else some lo
    | _, _ => none

/-- The fixed priority list of preferred sample formats. -/
def priorityFormats : List String :=
  ["S16_LE", "S24_3LE", "S32_LE"]

/-- `choose_common_format`: intersect the two format sets; pick the first
priority format in the intersection, else the lexicographically smallest
common token (`sorted(common)[0]`). -/
def choose_common_format (p1 p2 : HwParams) : Option String :=
  let common := p1.formats.filter (fun f => p2.formats.contains f)
  if common.isEmpty then none
  else
    match priorityFormats.find? (fun f => common.contains f) with
    | some f => some f
    | none => (List.insertionSort (fun a b => a ≤ b) common).head?

/-- The template's banner separator: `# ` followed by sixty `=` characters
and a newline. -/
def sepLine : String :=
  "# " ++ String.mk (List.replicate 60 '=') ++ "\n"

/-- `generate_asound_conf`: the rendered configuration text (the f-string
template, with Python `\x7b\x7b`/`\x7d\x7d` escapes producing literal
braces; the sixty-equals banner lines are `sepLine`). -/
def generate_asound_conf (cardA cardB : AlsaCard) (rate : Nat) (fmt : String) :
    String :=
  sepLine ++
  "# Auto-generated ALSA config: virtual 4ch device from two stereo devices\n" ++
  "#\n" ++
  "# Device A: card " ++ toString cardA.num ++ " (" ++ cardA.short ++
    ")  -> hw:CARD=" ++ cardA.short ++ ",DEV=" ++ toString cardA.dev ++ "\n" ++
  "# Device B: card " ++ toString cardB.num ++ " (" ++ cardB.short ++
    ")  -> hw:CARD=" ++ cardB.short ++ ",DEV=" ++ toString cardB.dev ++ "\n" ++
  "#\n" ++
  "# Mapping:\n" ++
  "#   ch0-1 -> Device A (L/R)\n" ++
  "#   ch2-3 -> Device B (L/R)\n" ++
  "#\n" ++
  "# User-facing device: \"convert4\"\n" ++
  "# Pinned common hw params: rate=" ++ toString rate ++ ", format=" ++ fmt ++
    ", channels=4\n" ++
  sepLine ++
  "\n" ++
  "pcm.both \x7b\n" ++
  "  type route;\n" ++
  "  slave.pcm \x7b\n" ++
  "    type multi;\n" ++
  "\n" ++
  "    slaves.a.pcm \"hw:CARD=" ++ cardA.short ++ ",DEV=" ++
    toString cardA.dev ++ "\";\n" ++
  "    slaves.a.channels 2;\n" ++
  "\n" ++
  "    slaves.b.pcm \"hw:CARD=" ++ cardB.short ++ ",DEV=" ++
    toString cardB.dev ++ "\";\n" ++
  "    slaves.b.channels 2;\n" ++
  "\n" ++
  "    bindings.0.slave a; bindings.0.channel 0;\n" ++
  "    bindings.1.slave a; bindings.1.channel 1;\n" ++
  "    bindings.2.slave b; bindings.2.channel 0;\n" ++
  "    bindings.3.slave b; bindings.3.channel 1;\n" ++
  "\n" ++
  "    hint \x7b description \"Combo HW (" ++ cardA.short ++ "+" ++
    cardB.short ++ ") raw 4ch\" \x7d\n" ++
  "  \x7d\n" ++
  "\n" ++
  "  ttable.0.0 1;\n" ++
  "  ttable.1.1 1;\n" ++
  "  ttable.2.2 1;\n" ++
  "  ttable.3.3 1;\n" ++
  "\x7d\n" ++
  "\n" ++
  "ctl.both \x7b\n" ++
  "  type hw;\n" ++
  "  card " ++ cardA.short ++ ";\n" ++
  "\x7d\n" ++
  "\n" ++
  "pcm.convert4 \x7b\n" ++
  "  type plug\n" ++
  "  slave \x7b\n" ++
  "    pcm both\n" ++
  "    format " ++ fmt ++ "\n" ++
  "    channels 4\n" ++
  "    rate " ++ toString rate ++ "\n" ++
  "  \x7d\n" ++
  "  hint \x7b description \"Combo Converted 4ch " ++ fmt ++ " " ++
    toString rate ++ "Hz\" \x7d\n" ++
  "\x7d\n"

/-- Outcome of one run of `main`: `fatal msg` models `raise SystemExit(msg)`
(the process exits with a nonzero status and nothing has been written);
`success conf` models the sole path on which the rendered text `conf` is
written to the output file. -/
inductive RunResult where
  | fatal (msg : String) : RunResult
  | success (conf : String) : RunResult
deriving DecidableEq, Repr

/-- `main`, as a pure function of the texts returned by the external
collaborators (`aplay -l` output, the two `--dump-hw-params` outputs) and the
operator's two card-number selections.  The checks appear in source order:
device count, distinctness, membership (in `pick_two_cards` the card list is
indexed by card number, which is unique after deduplication, so `find?` is
that lookup), then negotiation. -/
def mainModel (aplayOut : String) (n1 n2 : Nat) (hwOutA hwOutB : String) :
    RunResult :=
  let cards := parse_aplay_l aplayOut
  if cards.length < 2 then
    RunResult.fatal "Need at least 2 playback cards from aplay -l."
  else if n1 == n2 then
    RunResult.fatal "You must choose two different cards."
  else
    match cards.find? (fun c => c.num == n1),
          cards.find? (fun c => c.num == n2) with
    | some cardA, some cardB =>
      let pA := parse_hw_params hwOutA
      let pB := parse_hw_params hwOutB
      match choose_common_rate pA pB, choose_common_format pA pB with
      | some rate, some fmt =>
        RunResult.success (generate_asound_conf cardA cardB rate fmt)
      | _, _ =>
        RunResult.fatal "No common rate/format found in hw params."
    | _, _ => RunResult.fatal "One of the card numbers is not in the list."

/-- Modelled from the spec: a descriptor supports rate `r` if its domain is a
fixed value equal to `r`, or an interval containing `r` inclusive; an unknown
domain supports no rate. -/
def supportsSpec (p : HwParams) (r : Nat) : Bool :=
  (match p.rate_fixed with
   | some v => v == r
   | none => false) ||
  (match p.rate_range with
   | some (lo, hi) => decide (lo ≤ r) && decide (r ≤ hi)
   | none => false)

/-- Modelled from the spec: the first rate in the fixed priority list
48000, 44100, 96000, 32000 that both descriptors support. -/
def firstPriorityRate (a b : HwParams) : Option Nat :=
  [48000, 44100, 96000, 32000].find? (fun r => supportsSpec a r && supportsSpec b r)

/-! ## Rate negotiation: supporting lemmas -/

/-- Under the data-model invariant (at most one of the fixed value and the
interval is populated), the code's `supports` agrees with the spec's
disjunctive support notion. -/
theorem supports_eq_supportsSpec (p : HwParams)
    (wf : p.rate_fixed = none ∨ p.rate_range = none) (r : Nat) :
    supports p r = supportsSpec p r := by
  rcases hf : p.rate_fixed with _ | v
  · simp [supports, supportsSpec, hf]
  · rcases hr : p.rate_range with _ | lohi
    · simp [supports, supportsSpec, hf, hr]
    · exfalso
      rcases wf with h | h
      · rw [hf] at h; exact Option.noConfusion h
      · rw [hr] at h; exact Option.noConfusion h

/-- The code's `supports` always implies the spec's disjunctive support. -/
theorem supports_imp_supportsSpec (p : HwParams) (r : Nat)
    (h : supports p r = true) : supportsSpec p r = true := by
  rcases hf : p.rate_fixed with _ | v <;>
    rcases hr : p.rate_range with _ | ⟨lo, hi⟩ <;>
      simp [supports, hf, hr] at h <;>
        simp [supportsSpec, hf, hr, h]

/-- `supports p r = true` means the rate domain admits `r`. -/
theorem supports_sound (p : HwParams) (r : Nat) (h : supports p r = true) :
    p.rate_fixed = some r
      ∨ ∃ lo hi, p.rate_range = some (lo, hi) ∧ lo ≤ r ∧ r ≤ hi := by
  rcases hf : p.rate_fixed with _ | v
  · rcases hr : p.rate_range with _ | ⟨lo, hi⟩
    · simp [supports, hf, hr] at h
    · simp [supports, hf, hr] at h
      exact Or.inr ⟨lo, hi, rfl, h.1, h.2⟩
  · simp [supports, hf] at h
    exact Or.inl (by rw [h])

/-- A value of the effective interval that lies inside it is admitted by the
rate domain. -/
theorem get_range_sound (p : HwParams) (lo hi r : Nat)
    (hg : get_range p = some (lo, hi)) (h1 : lo ≤ r) (h2 : r ≤ hi) :
    p.rate_fixed = some r
      ∨ ∃ lo' hi', p.rate_range = some (lo', hi') ∧ lo' ≤ r ∧ r ≤ hi' := by
  rcases hf : p.rate_fixed with _ | v
  · simp [get_range, hf] at hg
    exact Or.inr ⟨lo, hi, hg, h1, h2⟩
  · simp [get_range, hf] at hg
    have : v = r := by omega
    exact Or.inl (by rw [this])

/-! ## Claims C1, C2, C10 -/

/-- Claim C1: for all capability descriptors `a` and `b` (satisfying the
data-model invariant that at most one of the fixed value and the interval is
populated), if any rate in the fixed priority list 48000, 44100, 96000, 32000
is supported by both descriptors — support being: the rate domain is a fixed
value equal to the rate, or a closed interval containing it inclusive, and an
unknown domain supports nothing — then `choose_common_rate` returns the first
such rate in that exact order (`firstPriorityRate`). -/
theorem choose_common_rate_priority_first (a b : HwParams)
    (wfa : a.rate_fixed = none ∨ a.rate_range = none)
    (wfb : b.rate_fixed = none ∨ b.rate_range = none)
    (r : Nat) (h : firstPriorityRate a b = some r) :
    choose_common_rate a b = some r := by
  have hfun : (fun x => supports a x && supports b x)
      = (fun x => supportsSpec a x && supportsSpec b x) := by
    funext x
    rw [supports_eq_supportsSpec a wfa x, supports_eq_supportsSpec b wfb x]
  unfold choose_common_rate preferredRates
  unfold firstPriorityRate at h
  rw [hfun, h]

/-- Witness for C1: both descriptors admit 48000 (one as a fixed value, one
inside an interval), so 48000 is chosen. -/
theorem choose_common_rate_priority_first_check :
    choose_common_rate
      ⟨[], [], some 48000, none, none, none⟩
      ⟨[], [], none, some (44100, 96000), none, none⟩ = some 48000 :=
  choose_common_rate_priority_first _ _ (Or.inr rfl) (Or.inl rfl) 48000 (by decide)

/-- Claim C2: when no rate of the priority list is supported by both
descriptors, `choose_common_rate` intersects the effective intervals and
returns the intersection's lower bound when nonempty; it returns `none` when
either effective interval is missing or the intersection is empty. -/
theorem choose_common_rate_fallback (a b : HwParams)
    (hno : ∀ r ∈ [48000, 44100, 96000, 32000],
      ¬(supportsSpec a r = true ∧ supportsSpec b r = true)) :
    (∀ la ha lb hb,
        get_range a = some (la, ha) → get_range b = some (lb, hb) →
          choose_common_rate a b
            = if max la lb ≤ min ha hb then some (max la lb) else none)
    ∧ ((get_range a = none ∨ get_range b = none) →
        choose_common_rate a b = none) := by
  have hfind :
      List.find? (fun r => supports a r && supports b r) preferredRates = none := by
    rw [List.find?_eq_none]
    intro x hx hpx
    rw [Bool.and_eq_true] at hpx
    exact hno x hx
      ⟨supports_imp_supportsSpec a x hpx.1, supports_imp_supportsSpec b x hpx.2⟩
  constructor
  · intro la ha lb hb hga hgb
    simp only [choose_common_rate, hfind, hga, hgb]
    by_cases hcmp : max la lb ≤ min ha hb
    · rw [if_pos hcmp, if_neg (by omega : ¬ max la lb > min ha hb)]
    · rw [if_neg hcmp, if_pos (by omega : max la lb > min ha hb)]
  · intro hnone
    rcases hnone with h | h
    · rcases hgb : get_range b with _ | ⟨lb, hb⟩ <;>
        simp [choose_common_rate, hfind, h, hgb]
    · rcases hga : get_range a with _ | ⟨la, ha⟩ <;>
        simp [choose_common_rate, hfind, h, hga]

/-- Witness for C2: intervals [8000, 20000] and [10000, 30000] share no
priority rate; the intersection's lower bound 10000 is chosen. -/
theorem choose_common_rate_fallback_check :
    choose_common_rate
      ⟨[], [], none, some (8000, 20000), none, none⟩
      ⟨[], [], none, some (10000, 30000), none, none⟩ = some 10000 :=
  ((choose_common_rate_fallback
      ⟨[], [], none, some (8000, 20000), none, none⟩
      ⟨[], [], none, some (10000, 30000), none, none⟩ (by decide)).1
    8000 20000 10000 30000 rfl rfl).trans (by decide)

/-- Claim C10 (soundness of rate negotiation): every rate returned by
`choose_common_rate` is admitted by both descriptors' rate domains, on the
priority path as well as on the interval-intersection fallback path. -/
theorem choose_common_rate_sound (a b : HwParams) (r : Nat)
    (h : choose_common_rate a b = some r) :
    (a.rate_fixed = some r
      ∨ ∃ lo hi, a.rate_range = some (lo, hi) ∧ lo ≤ r ∧ r ≤ hi)
    ∧ (b.rate_fixed = some r
      ∨ ∃ lo hi, b.rate_range = some (lo, hi) ∧ lo ≤ r ∧ r ≤ hi) := by
  unfold choose_common_rate at h
  rcases hfind :
      List.find? (fun x => supports a x && supports b x) preferredRates with _ | r'
  · rw [hfind] at h
    rcases hga : get_range a with _ | ⟨la, ha⟩ <;>
      rcases hgb : get_range b with _ | ⟨lb, hb⟩ <;>
        rw [hga, hgb] at h
    · exact absurd h (by simp)
    · exact absurd h (by simp)
    · exact absurd h (by simp)
    · by_cases hcmp : max la lb > min ha hb
      · simp [hcmp] at h
      · simp [hcmp] at h
        constructor
        · exact get_range_sound a la ha r hga (by omega) (by omega)
        · exact get_range_sound b lb hb r hgb (by omega) (by omega)
  · rw [hfind] at h
    simp at h
    subst h
    have hp := List.find?_some hfind
    rw [Bool.and_eq_true] at hp
    exact ⟨supports_sound a r' hp.1, supports_sound b r' hp.2⟩

/-- Witness for C10: the negotiated rate 48000 is admitted by the fixed
domain of the first descriptor and the interval of the second. -/
theorem choose_common_rate_sound_check :
    ((⟨[], [], some 48000, none, none, none⟩ : HwParams).rate_fixed = some 48000
      ∨ ∃ lo hi,
          (⟨[], [], some 48000, none, none, none⟩ : HwParams).rate_range
              = some (lo, hi) ∧ lo ≤ 48000 ∧ 48000 ≤ hi)
    ∧ ((⟨[], [], none, some (32000, 96000), none, none⟩ : HwParams).rate_fixed
          = some 48000
      ∨ ∃ lo hi,
          (⟨[], [], none, some (32000, 96000), none, none⟩ : HwParams).rate_range
              = some (lo, hi) ∧ lo ≤ 48000 ∧ 48000 ≤ hi) :=
  choose_common_rate_sound _ _ 48000 (by decide)

/-! ## Format negotiation: supporting lemmas -/

/-- `List.contains` for strings is set membership. -/
theorem contains_iff_mem (l : List String) (x : String) :
    l.contains x = true ↔ x ∈ l := by
  rw [show l.contains x = List.elem x l from rfl]
  exact List.elem_iff

/-- Negative form of `contains_iff_mem`. -/
theorem contains_eq_false_iff (l : List String) (x : String) :
    l.contains x = false ↔ x ∉ l := by
  constructor
  · intro h hmem
    rw [(contains_iff_mem l x).mpr hmem] at h
    exact Bool.noConfusion h
  · intro h
    cases hb : l.contains x
    · rfl
    · exact absurd ((contains_iff_mem l x).mp hb) h

/-- A Bool that is false is not true. -/
theorem bool_ne_true {b : Bool} (h : b = false) : ¬ b = true := by
  intro h2
  rw [h] at h2
  exact Bool.noConfusion h2

/-- Membership in the intersection list computed by `choose_common_format`. -/
theorem format_common_mem (a b : HwParams) (t : String) :
    t ∈ a.formats.filter (fun f => b.formats.contains f)
      ↔ (t ∈ a.formats ∧ t ∈ b.formats) := by
  rw [List.mem_filter]
  constructor
  · rintro ⟨h1, h2⟩
    exact ⟨h1, (contains_iff_mem _ _).mp h2⟩
  · rintro ⟨h1, h2⟩
    exact ⟨h1, (contains_iff_mem _ _).mpr h2⟩

/-- The head of the insertion-sorted copy of a nonempty list of strings is
its least element (Python `sorted(l)[0]`). -/
theorem sortedHead_min (l : List String) (hne : l ≠ []) :
    ∃ m, (List.insertionSort (fun a b => a ≤ b) l).head? = some m
      ∧ m ∈ l ∧ ∀ u ∈ l, m ≤ u := by
  have hperm : (List.insertionSort (fun a b : String => a ≤ b) l).Perm l :=
    List.perm_insertionSort _ l
  have hsne : List.insertionSort (fun a b : String => a ≤ b) l ≠ [] := by
    intro h0
    rw [h0] at hperm
    exact hne (hperm.symm.eq_nil)
  have hsorted : List.Sorted (fun a b : String => a ≤ b)
      (List.insertionSort (fun a b : String => a ≤ b) l) :=
    List.sorted_insertionSort _ l
  refine ⟨(List.insertionSort (fun a b : String => a ≤ b) l).head hsne,
    List.head?_eq_head hsne, hperm.mem_iff.mp (List.head_mem hsne), ?_⟩
  intro u hu
  have hus : u ∈ List.insertionSort (fun a b : String => a ≤ b) l :=
    hperm.mem_iff.mpr hu
  have hcons := List.head_cons_tail (List.insertionSort (fun a b : String => a ≤ b) l) hsne
  rw [← hcons] at hsorted hus
  rcases List.mem_cons.mp hus with h | h
  · exact h ▸ le_refl _
  · exact List.rel_of_sorted_cons hsorted u h

/-! ## Claim C3 -/

/-- Claim C3: `choose_common_format` returns `none` exactly when the two
format sets have empty intersection; otherwise it returns the first of
S16_LE, S24_3LE, S32_LE (in that exact priority order) lying in the
intersection, and when none of those three is common it returns the
lexicographically smallest common token. -/
theorem choose_common_format_spec (a b : HwParams) :
    (choose_common_format a b = none ↔ ∀ t, ¬(t ∈ a.formats ∧ t ∈ b.formats))
    ∧ (("S16_LE" ∈ a.formats ∧ "S16_LE" ∈ b.formats) →
        choose_common_format a b = some "S16_LE")
    ∧ (¬("S16_LE" ∈ a.formats ∧ "S16_LE" ∈ b.formats) →
        ("S24_3LE" ∈ a.formats ∧ "S24_3LE" ∈ b.formats) →
        choose_common_format a b = some "S24_3LE")
    ∧ (¬("S16_LE" ∈ a.formats ∧ "S16_LE" ∈ b.formats) →
        ¬("S24_3LE" ∈ a.formats ∧ "S24_3LE" ∈ b.formats) →
        ("S32_LE" ∈ a.formats ∧ "S32_LE" ∈ b.formats) →
        choose_common_format a b = some "S32_LE")
    ∧ (¬("S16_LE" ∈ a.formats ∧ "S16_LE" ∈ b.formats) →
        ¬("S24_3LE" ∈ a.formats ∧ "S24_3LE" ∈ b.formats) →
        ¬("S32_LE" ∈ a.formats ∧ "S32_LE" ∈ b.formats) →
        ∀ t, (t ∈ a.formats ∧ t ∈ b.formats) →
          ∃ m, choose_common_format a b = some m
            ∧ (m ∈ a.formats ∧ m ∈ b.formats)
            ∧ ∀ u, u ∈ a.formats → u ∈ b.formats → m ≤ u) := by
  refine ⟨⟨?_, ?_⟩, ?_, ?_, ?_, ?_⟩
  · -- none → empty intersection
    intro hnone t hts
    have htc : t ∈ a.formats.filter (fun f => b.formats.contains f) :=
      (format_common_mem a b t).mpr hts
    have hne := List.ne_nil_of_mem htc
    have hie : (a.formats.filter (fun f => b.formats.contains f)).isEmpty = false :=
      List.isEmpty_eq_false.mpr hne
    simp only [choose_common_format, hie, Bool.false_eq_true, if_false] at hnone
    rcases hfind : List.find? (fun f =>
        (a.formats.filter (fun f => b.formats.contains f)).contains f)
        priorityFormats with _ | f
    · rw [hfind] at hnone
      simp only [] at hnone
      have hs := List.head?_eq_none_iff.mp hnone
      have hperm := List.perm_insertionSort
        (fun a b : String => a ≤ b) (a.formats.filter (fun f => b.formats.contains f))
      rw [hs] at hperm
      exact hne hperm.symm.eq_nil
    · rw [hfind] at hnone
      exact Option.noConfusion hnone
  · -- empty intersection → none
    intro hall
    have hfil : a.formats.filter (fun f => b.formats.contains f) = [] := by
      cases hfe : a.formats.filter (fun f => b.formats.contains f) with
      | nil => rfl
      | cons x xs =>
        exact absurd ((format_common_mem a b x).mp
          (hfe ▸ List.mem_cons_self x xs)) (hall x)
    simp only [choose_common_format, hfil, List.isEmpty_nil, if_true]
  · -- S16_LE common
    intro h16
    have hmem16 := (format_common_mem a b "S16_LE").mpr h16
    have hie : (a.formats.filter (fun f => b.formats.contains f)).isEmpty = false :=
      List.isEmpty_eq_false.mpr (List.ne_nil_of_mem hmem16)
    have hc16 := (contains_iff_mem _ "S16_LE").mpr hmem16
    simp only [choose_common_format, hie, Bool.false_eq_true, if_false, priorityFormats]
    rw [List.find?_cons_of_pos _ hc16]
  · -- S24_3LE first common priority format
    intro h16 h24
    have hmem24 := (format_common_mem a b "S24_3LE").mpr h24
    have hie : (a.formats.filter (fun f => b.formats.contains f)).isEmpty = false :=
      List.isEmpty_eq_false.mpr (List.ne_nil_of_mem hmem24)
    have hc16 := (contains_eq_false_iff
      (a.formats.filter (fun f => b.formats.contains f)) "S16_LE").mpr
      (fun hmem => h16 ((format_common_mem a b "S16_LE").mp hmem))
    have hc24 := (contains_iff_mem _ "S24_3LE").mpr hmem24
    simp only [choose_common_format, hie, Bool.false_eq_true, if_false, priorityFormats]
    rw [List.find?_cons_of_neg _ (bool_ne_true hc16),
        List.find?_cons_of_pos _ hc24]
  · -- S32_LE first common priority format
    intro h16 h24 h32
    have hmem32 := (format_common_mem a b "S32_LE").mpr h32
    have hie : (a.formats.filter (fun f => b.formats.contains f)).isEmpty = false :=
      List.isEmpty_eq_false.mpr (List.ne_nil_of_mem hmem32)
    have hc16 := (contains_eq_false_iff
      (a.formats.filter (fun f => b.formats.contains f)) "S16_LE").mpr
      (fun hmem => h16 ((format_common_mem a b "S16_LE").mp hmem))
    have hc24 := (contains_eq_false_iff
      (a.formats.filter (fun f => b.formats.contains f)) "S24_3LE").mpr
      (fun hmem => h24 ((format_common_mem a b "S24_3LE").mp hmem))
    have hc32 := (contains_iff_mem _ "S32_LE").mpr hmem32
    simp only [choose_common_format, hie, Bool.false_eq_true, if_false, priorityFormats]
    rw [List.find?_cons_of_neg _ (bool_ne_true hc16),
        List.find?_cons_of_neg _ (bool_ne_true hc24),
        List.find?_cons_of_pos _ hc32]
  · -- lexicographic fallback
    intro h16 h24 h32 t ht
    have htc := (format_common_mem a b t).mpr ht
    have hne := List.ne_nil_of_mem htc
    have hie : (a.formats.filter (fun f => b.formats.contains f)).isEmpty = false :=
      List.isEmpty_eq_false.mpr hne
    have hfind : List.find? (fun f =>
        (a.formats.filter (fun f => b.formats.contains f)).contains f)
        priorityFormats = none := by
      rw [List.find?_eq_none]
      intro x hx hpx
      have hxmem : x ∈ a.formats.filter (fun f => b.formats.contains f) :=
        (contains_iff_mem _ x).mp (by simpa using hpx)
      have hxc := (format_common_mem a b x).mp hxmem
      rcases (by simpa [priorityFormats] using hx :
          x = "S16_LE" ∨ x = "S24_3LE" ∨ x = "S32_LE") with h | h | h
      · exact h16 (h ▸ hxc)
      · exact h24 (h ▸ hxc)
      · exact h32 (h ▸ hxc)
    obtain ⟨m, hm, hmmem, hmmin⟩ := sortedHead_min _ hne
    refine ⟨m, ?_, (format_common_mem a b m).mp hmmem, ?_⟩
    · simp only [choose_common_format, hie, Bool.false_eq_true, if_false, hfind]
      exact hm
    · intro u hu1 hu2
      exact hmmin u ((format_common_mem a b u).mpr ⟨hu1, hu2⟩)

/-- Witness for C3: S16_LE is common, so it is chosen ahead of the other
shared formats. -/
theorem choose_common_format_spec_check :
    choose_common_format
      ⟨[], ["S32_LE", "S16_LE"], none, none, none, none⟩
      ⟨[], ["S16_LE", "FLOAT_LE"], none, none, none, none⟩ = some "S16_LE" :=
  (choose_common_format_spec _ _).2.1 ⟨by decide, by decide⟩

/-! ## Device list parser: supporting lemmas -/

/-- Looking up each key of a strictly increasing key list with `find?` yields
a record list that is strictly increasing on the `num` field. -/
theorem pairwise_num_filterMap_find (cards : List AlsaCard) (keys : List Nat)
    (hk : keys.Pairwise (· < ·)) :
    (keys.filterMap (fun k => cards.find? (fun c => c.num == k))).Pairwise
      (fun c d => c.num < d.num) := by
  induction keys with
  | nil => simp
  | cons k ks ih =>
    rw [List.filterMap_cons]
    rcases hfk : cards.find? (fun c => c.num == k) with _ | c
    · rw [hfk]
      exact ih hk.of_cons
    · rw [hfk]
      refine List.pairwise_cons.mpr ⟨?_, ih hk.of_cons⟩
      intro d hd
      obtain ⟨q, hq, hfq⟩ := List.mem_filterMap.mp hd
      have h1b := List.find?_some hfk
      have h2b := List.find?_some hfq
      have h1 : c.num = k := eq_of_beq h1b
      have h2 : d.num = q := eq_of_beq h2b
      have h3 : k < q := (List.pairwise_cons.mp hk).1 q hq
      omega

/-- Insertion-sorting a duplicate-free list of naturals yields a strictly
increasing list. -/
theorem sortNat_pairwise_lt (l : List Nat) (hl : l.Nodup) :
    (List.insertionSort (fun a b => a ≤ b) l).Pairwise (· < ·) := by
  have hsorted : List.Sorted (fun a b : Nat => a ≤ b)
      (List.insertionSort (fun a b : Nat => a ≤ b) l) :=
    List.sorted_insertionSort _ l
  have hnodup : (List.insertionSort (fun a b : Nat => a ≤ b) l).Nodup :=
    (List.perm_insertionSort _ l).nodup_iff.mpr hl
  exact (hsorted.and hnodup).imp (fun h => lt_of_le_of_ne h.1 h.2)

/-! ## Claims C4, C5 -/

/-- Claim C4: for every input text, the record sequence returned by
`parse_aplay_l` is strictly increasing in the card index — hence sorted
ascending with no duplicate indices. -/
theorem parse_aplay_l_sorted_nodup (output : String) :
    (parse_aplay_l output).Pairwise (fun c d => c.num < d.num) := by
  simp only [parse_aplay_l]
  apply pairwise_num_filterMap_find
  exact sortNat_pairwise_lt _ (List.nodup_dedup _)

/-- Claim C5: whenever some matching line decodes to a record with index `n`,
the unique record with index `n` that `parse_aplay_l` returns is the one
found first (in line order) among the decoded records — every later record
with the same index is discarded. -/
theorem parse_aplay_l_keeps_first (output : String) (n : Nat) (c : AlsaCard)
    (hc : c ∈ (splitLines output).filterMap parseCardLine) (hn : c.num = n) :
    ∃ c0,
      ((splitLines output).filterMap parseCardLine).find?
          (fun d => d.num == n) = some c0
      ∧ c0 ∈ parse_aplay_l output
      ∧ ∀ d ∈ parse_aplay_l output, d.num = n → d = c0 := by
  have hsome : (((splitLines output).filterMap parseCardLine).find?
      (fun d => d.num == n)).isSome := by
    rw [List.find?_isSome]
    exact ⟨c, hc, by rw [hn]; exact beq_self_eq_true n⟩
  obtain ⟨c0, hc0⟩ := Option.isSome_iff_exists.mp hsome
  have hkeys : n ∈ List.insertionSort (fun a b => a ≤ b)
      ((((splitLines output).filterMap parseCardLine).map
        (fun c => c.num)).dedup) := by
    rw [List.mem_insertionSort, List.mem_dedup]
    exact List.mem_map.mpr ⟨c, hc, hn⟩
  refine ⟨c0, hc0, ?_, ?_⟩
  · simp only [parse_aplay_l]
    exact List.mem_filterMap.mpr ⟨n, hkeys, hc0⟩
  · intro d hd hdn
    simp only [parse_aplay_l] at hd
    obtain ⟨k, hk, hfk⟩ := List.mem_filterMap.mp hd
    have hdkb := List.find?_some hfk
    have hdk : d.num = k := eq_of_beq hdkb
    have hkn : k = n := by omega
    rw [hkn, hc0] at hfk
    exact (Option.some_inj.mp hfk).symm

/-- Witness for C5: two lines share card index 3 with different sub-devices;
the record decoded from the first line is the one retained. -/
theorem parse_aplay_l_keeps_first_check :
    ∃ c0,
      ((splitLines
          "card 3: A [x], device 0: U [u]\ncard 3: A [y], device 1: U [u]").filterMap
            parseCardLine).find? (fun d => d.num == 3) = some c0
      ∧ c0 ∈ parse_aplay_l
          "card 3: A [x], device 0: U [u]\ncard 3: A [y], device 1: U [u]"
      ∧ ∀ d ∈ parse_aplay_l
            "card 3: A [x], device 0: U [u]\ncard 3: A [y], device 1: U [u]",
          d.num = 3 → d = c0 :=
  parse_aplay_l_keeps_first _ 3 ⟨3, "A", "x", 0⟩ (by decide) rfl

/-! ## Capability parser: supporting lemmas -/

/-- If the matcher fails wherever its label is not a prefix, and the label
occurs nowhere in the text, the whole search fails. -/
theorem reSearch_eq_none_of_no_occurrence {α : Type} (m : List Char → Option α)
    (pat : List Char)
    (hm : ∀ t, pat.isPrefixOf t = false → m t = none)
    (s : List Char) (h : occursIn pat s = false) :
    reSearch m s = none := by
  induction s with
  | nil =>
    have hp : pat.isPrefixOf [] = false := by
      rcases hb : pat.isPrefixOf ([] : List Char)
      · rfl
      · unfold occursIn reSearch at h
        simp [hb] at h
    exact hm [] hp
  | cons c cs ih =>
    have h1 : pat.isPrefixOf (c :: cs) = false ∧ occursIn pat cs = false := by
      rcases hb : pat.isPrefixOf (c :: cs)
      · refine ⟨rfl, ?_⟩
        unfold occursIn reSearch at h
        unfold occursIn
        simpa [hb] using h
      · unfold occursIn reSearch at h
        simp [hb] at h
    have hmc := hm (c :: cs) h1.1
    unfold reSearch
    rw [hmc]
    exact ih h1.2

/-- `matchCaptureLine` fails when its label is not a prefix. -/
theorem matchCaptureLine_none (label t : List Char)
    (h : label.isPrefixOf t = false) : matchCaptureLine label t = none := by
  simp [matchCaptureLine, expectLit, h]

/-- `matchInterval` fails when its label is not a prefix. -/
theorem matchInterval_none (label t : List Char)
    (h : label.isPrefixOf t = false) : matchInterval label t = none := by
  simp [matchInterval, expectLit, h]

/-- `matchBareInt` fails when its label is not a prefix. -/
theorem matchBareInt_none (label t : List Char)
    (h : label.isPrefixOf t = false) : matchBareInt label t = none := by
  simp [matchBareInt, expectLit, h]

/-- A label that occurs nowhere yields an unknown domain. -/
theorem parseDomain_none (label s : List Char) (h : occursIn label s = false) :
    parseDomain label s = (none, none) := by
  unfold parseDomain
  rw [reSearch_eq_none_of_no_occurrence _ label (matchInterval_none label) s h,
      reSearch_eq_none_of_no_occurrence _ label (matchBareInt_none label) s h]

/-! ## Claims C6, C7 -/

/-- Claim C6: `parse_hw_params` tries the bracketed two-integer interval
shape of the RATE field first and falls back to the bare-integer shape only
when the interval shape matches nowhere; `RATE: [32000 192000]` yields the
interval (32000, 192000), `RATE: 48000` (with no interval-shaped RATE field)
yields the fixed value 48000, and text with no RATE field yields the unknown
domain. -/
theorem parse_hw_params_rate_interval_first (s : String) :
    (∀ lo hi, reSearch (matchInterval "RATE:".data) s.data = some (lo, hi) →
        (parse_hw_params s).rate_range = some (lo, hi)
          ∧ (parse_hw_params s).rate_fixed = none)
    ∧ (reSearch (matchInterval "RATE:".data) s.data = none →
        ∀ v, reSearch (matchBareInt "RATE:".data) s.data = some v →
          (parse_hw_params s).rate_fixed = some v
            ∧ (parse_hw_params s).rate_range = none)
    ∧ (reSearch (matchInterval "RATE:".data) s.data = none →
        reSearch (matchBareInt "RATE:".data) s.data = none →
          (parse_hw_params s).rate_fixed = none
            ∧ (parse_hw_params s).rate_range = none)
    ∧ ((parse_hw_params "RATE: [32000 192000]").rate_range = some (32000, 192000)
        ∧ (parse_hw_params "RATE: [32000 192000]").rate_fixed = none)
    ∧ ((parse_hw_params "RATE: 48000").rate_fixed = some 48000
        ∧ (parse_hw_params "RATE: 48000").rate_range = none)
    ∧ ((parse_hw_params "CHANNELS: 2").rate_fixed = none
        ∧ (parse_hw_params "CHANNELS: 2").rate_range = none) := by
  refine ⟨?_, ?_, ?_, by decide, by decide, by decide⟩
  · intro lo hi hiv
    unfold parse_hw_params parseDomain
    rw [hiv]
    exact ⟨rfl, rfl⟩
  · intro hnone v hv
    unfold parse_hw_params parseDomain
    rw [hnone, hv]
    exact ⟨rfl, rfl⟩
  · intro h1 h2
    unfold parse_hw_params parseDomain
    rw [h1, h2]
    exact ⟨rfl, rfl⟩

/-- Witness for C6: an interval-shaped RATE field in a larger text is decoded
as an interval, with the fixed value left empty. -/
theorem parse_hw_params_rate_interval_first_check :
    (parse_hw_params "ACCESS: RW_INTERLEAVED\nRATE: [44100 48000]").rate_range
        = some (44100, 48000)
    ∧ (parse_hw_params "ACCESS: RW_INTERLEAVED\nRATE: [44100 48000]").rate_fixed
        = none :=
  (parse_hw_params_rate_interval_first _).1 44100 48000 (by decide)

/-- Claim C7: `parse_hw_params` is total (it is a plain function returning a
descriptor for every text), and missing fields are never an error: an absent
ACCESS or FORMAT label yields the empty token set, and an absent CHANNELS or
RATE label yields the unknown domain (both the fixed value and the interval
absent). -/
theorem parse_hw_params_missing_fields (s : String) :
    (occursIn "ACCESS:".data s.data = false → (parse_hw_params s).access = [])
    ∧ (occursIn "FORMAT:".data s.data = false → (parse_hw_params s).formats = [])
    ∧ (occursIn "CHANNELS:".data s.data = false →
        (parse_hw_params s).channels_fixed = none
          ∧ (parse_hw_params s).channels_range = none)
    ∧ (occursIn "RATE:".data s.data = false →
        (parse_hw_params s).rate_fixed = none
          ∧ (parse_hw_params s).rate_range = none) := by
  refine ⟨?_, ?_, ?_, ?_⟩
  · intro h
    simp only [parse_hw_params]
    rw [reSearch_eq_none_of_no_occurrence _ _
      (matchCaptureLine_none "ACCESS:".data) s.data h]
  · intro h
    simp only [parse_hw_params]
    rw [reSearch_eq_none_of_no_occurrence _ _
      (matchCaptureLine_none "FORMAT:".data) s.data h]
  · intro h
    simp only [parse_hw_params]
    rw [parseDomain_none "CHANNELS:".data s.data h]
    exact ⟨rfl, rfl⟩
  · intro h
    simp only [parse_hw_params]
    rw [parseDomain_none "RATE:".data s.data h]
    exact ⟨rfl, rfl⟩

/-- Witness for C7: a text carrying only a FORMAT field parses with empty
access modes and unknown rate domain. -/
theorem parse_hw_params_missing_fields_check :
    (parse_hw_params "FORMAT: S16_LE S24_3LE").access = []
    ∧ (parse_hw_params "FORMAT: S16_LE S24_3LE").rate_fixed = none
    ∧ (parse_hw_params "FORMAT: S16_LE S24_3LE").rate_range = none :=
  ⟨(parse_hw_params_missing_fields _).1 (by decide),
   ((parse_hw_params_missing_fields _).2.2.2 (by decide)).1,
   ((parse_hw_params_missing_fields _).2.2.2 (by decide)).2⟩

/-! ## Claims C8, C9 -/

/-- Claim C8: `generate_asound_conf` is deterministic — it is a pure function
of its inputs, and its output depends only on the `num`, `short` and `dev`
fields of the two records plus the negotiated rate and format; it embeds no
timestamp or environment-dependent content, so equal inputs always produce
byte-identical text. -/
theorem generate_asound_conf_deterministic (a a' b b' : AlsaCard)
    (rate : Nat) (fmt : String)
    (hanum : a.num = a'.num) (hashort : a.short = a'.short)
    (hadev : a.dev = a'.dev) (hbnum : b.num = b'.num)
    (hbshort : b.short = b'.short) (hbdev : b.dev = b'.dev) :
    generate_asound_conf a b rate fmt = generate_asound_conf a' b' rate fmt := by
  unfold generate_asound_conf
  rw [hanum, hashort, hadev, hbnum, hbshort, hbdev]

/-- Witness for C8: records that differ only in the unused `desc` field
render to byte-identical text. -/
theorem generate_asound_conf_deterministic_check :
    generate_asound_conf ⟨3, "A", "first enumeration label", 0⟩
        ⟨4, "CODEC", "x", 0⟩ 48000 "S16_LE"
      = generate_asound_conf ⟨3, "A", "second enumeration label", 0⟩
        ⟨4, "CODEC", "y", 0⟩ 48000 "S16_LE" :=
  generate_asound_conf_deterministic _ _ _ _ _ _ rfl rfl rfl rfl rfl rfl

attribute [irreducible] generate_asound_conf

/-- Claim C9: in the orchestrator, whenever negotiation fails — the rate or
the format comes back absent — the run terminates fatally (`SystemExit`,
nonzero status) and no configuration file is written; conversely the rendered
document is produced and persisted only on runs where both a rate and a
format were negotiated. -/
theorem mainModel_fatal_on_failed_negotiation (aplayOut : String) (n1 n2 : Nat)
    (hwA hwB : String) :
    ((choose_common_rate (parse_hw_params hwA) (parse_hw_params hwB) = none
        ∨ choose_common_format (parse_hw_params hwA) (parse_hw_params hwB) = none) →
      ∃ msg, mainModel aplayOut n1 n2 hwA hwB = RunResult.fatal msg)
    ∧ (∀ conf, mainModel aplayOut n1 n2 hwA hwB = RunResult.success conf →
        ∃ rate fmt cardA cardB,
          choose_common_rate (parse_hw_params hwA) (parse_hw_params hwB) = some rate
          ∧ choose_common_format (parse_hw_params hwA) (parse_hw_params hwB) = some fmt
          ∧ conf = generate_asound_conf cardA cardB rate fmt) := by
  simp only [mainModel]
  by_cases hlen : (parse_aplay_l aplayOut).length < 2
  · rw [if_pos hlen]
    exact ⟨fun _ => ⟨_, rfl⟩, fun conf h => RunResult.noConfusion h⟩
  · rw [if_neg hlen]
    by_cases heq : (n1 == n2) = true
    · rw [if_pos heq]
      exact ⟨fun _ => ⟨_, rfl⟩, fun conf h => RunResult.noConfusion h⟩
    · rw [if_neg heq]
      rcases hfa : (parse_aplay_l aplayOut).find? (fun c => c.num == n1) with _ | cA <;>
        rcases hfb : (parse_aplay_l aplayOut).find? (fun c => c.num == n2) with _ | cB <;>
        rw [hfa, hfb]
      · exact ⟨fun _ => ⟨_, rfl⟩, fun conf h => RunResult.noConfusion h⟩
      · exact ⟨fun _ => ⟨_, rfl⟩, fun conf h => RunResult.noConfusion h⟩
      · exact ⟨fun _ => ⟨_, rfl⟩, fun conf h => RunResult.noConfusion h⟩
      · rcases hr : choose_common_rate (parse_hw_params hwA) (parse_hw_params hwB)
            with _ | rate <;>
          rcases hf : choose_common_format (parse_hw_params hwA) (parse_hw_params hwB)
            with _ | fmt
        · exact ⟨fun _ => ⟨_, rfl⟩, fun conf h => RunResult.noConfusion h⟩
        · exact ⟨fun _ => ⟨_, rfl⟩, fun conf h => RunResult.noConfusion h⟩
        · exact ⟨fun _ => ⟨_, rfl⟩, fun conf h => RunResult.noConfusion h⟩
        · constructor
          · intro hcontra
            rcases hcontra with h | h
            · exact Option.noConfusion h
            · exact Option.noConfusion h
          · intro conf h
            refine ⟨rate, fmt, cA, cB, rfl, rfl, ?_⟩
            injection h with h2
            exact h2.symm

/-- Witness for C9: non-overlapping rate ranges [8000, 16000] and
[32000, 96000] make rate negotiation fail, so the run ends fatally and no
configuration text is produced. -/
theorem mainModel_fatal_on_failed_negotiation_check :
    ∃ msg, mainModel
        "card 3: A [Headphone A], device 0: USB Audio [USB Audio]\ncard 4: CODEC [USB Audio CODEC], device 0: USB Audio [USB Audio]"
        3 4 "RATE: [8000 16000]" "RATE: [32000 96000]" = RunResult.fatal msg :=
  (mainModel_fatal_on_failed_negotiation _ 3 4 _ _).1 (Or.inl (by decide))
